import Mathlib

/-!
Verification of the DeepMoon coordinate-transform module
(`deepmoon/coord/transformation.py`) and the `MoonCrater` dataset adapter
(`deepmoon/learning/moondata.py`).

Numeric model: the Python code computes with IEEE-754 doubles.  We embed a
double as `EFloat`: either a finite value (an exact rational, abstracting away
rounding) or one of the special values `inf`, `neginf`, `nan`.  Arithmetic on
finite operands is exact rational arithmetic; the special values follow the
IEEE rules (in particular, a finite nonzero value divided by zero gives a
signed infinity and `0 / 0` gives `nan`).  Signed zero is not modelled: a zero
divisor is treated as `+0`.
-/

namespace DeepMoon

/-- A host floating-point value: a finite (exact) rational, a signed
infinity, or `nan`. -/
inductive EFloat where
  | fin (q : ℚ)
  | inf
  | neginf
  | nan
deriving DecidableEq

/-- `true` on the special (non-finite) values `inf`, `neginf`, `nan`. -/
def EFloat.isSpecial : EFloat → Bool
  | .fin _ => false
  | .inf => true
  | .neginf => true
  | .nan => true

/-- IEEE-style addition on the embedded doubles. -/
def EFloat.add : EFloat → EFloat → EFloat
  | .fin a, .fin b => .fin (a + b)
  | .fin _, .inf => .inf
  | .fin _, .neginf => .neginf
  | .fin _, .nan => .nan
  | .inf, .fin _ => .inf
  | .inf, .inf => .inf
  | .inf, .neginf => .nan
  | .inf, .nan => .nan
  | .neginf, .fin _ => .neginf
  | .neginf, .inf => .nan
  | .neginf, .neginf => .neginf
  | .neginf, .nan => .nan
  | .nan, _ => .nan

/-- IEEE-style subtraction on the embedded doubles. -/
def EFloat.sub : EFloat → EFloat → EFloat
  | .fin a, .fin b => .fin (a - b)
  | .fin _, .inf => .neginf
  | .fin _, .neginf => .inf
  | .fin _, .nan => .nan
  | .inf, .fin _ => .inf
  | .inf, .inf => .nan
  | .inf, .neginf => .inf
  | .inf, .nan => .nan
  | .neginf, .fin _ => .neginf
  | .neginf, .inf => .neginf
  | .neginf, .neginf => .nan
  | .neginf, .nan => .nan
  | .nan, _ => .nan

/-- IEEE-style multiplication on the embedded doubles
(`0 * inf = nan`, signs propagate). -/
def EFloat.mul : EFloat → EFloat → EFloat
  | .fin a, .fin b => .fin (a * b)
  | .fin a, .inf => if 0 < a then .inf else if a < 0 then .neginf else .nan
  | .fin a, .neginf => if 0 < a then .neginf else if a < 0 then .inf else .nan
  | .fin _, .nan => .nan
  | .inf, .fin b => if 0 < b then .inf else if b < 0 then .neginf else .nan
  | .inf, .inf => .inf
  | .inf, .neginf => .neginf
  | .inf, .nan => .nan
  | .neginf, .fin b => if 0 < b then .neginf else if b < 0 then .inf else .nan
  | .neginf, .inf => .neginf
  | .neginf, .neginf => .inf
  | .neginf, .nan => .nan
  | .nan, _ => .nan

/-- IEEE-style division on the embedded doubles: a positive finite value
divided by zero is `inf`, a negative one is `neginf`, `0 / 0` is `nan`
(the zero divisor is treated as `+0` since the rationals have no signed
zero); a finite value divided by an infinity is `0`; `inf / inf = nan`. -/
def EFloat.div : EFloat → EFloat → EFloat
  | .fin a, .fin b =>
      if b = 0 then (if 0 < a then .inf else if a < 0 then .neginf else .nan)
      else .fin (a / b)
  | .fin _, .inf => .fin 0
  | .fin _, .neginf => .fin 0
  | .fin _, .nan => .nan
  | .inf, .fin b => if b < 0 then .neginf else .inf
  | .inf, .inf => .nan
  | .inf, .neginf => .nan
  | .inf, .nan => .nan
  | .neginf, .fin b => if b < 0 then .inf else .neginf
  | .neginf, .inf => .nan
  | .neginf, .neginf => .nan
  | .neginf, .nan => .nan
  | .nan, _ => .nan

@[simp] theorem EFloat.fin_add_fin (a b : ℚ) :
    (EFloat.fin a).add (EFloat.fin b) = EFloat.fin (a + b) := rfl

@[simp] theorem EFloat.fin_sub_fin (a b : ℚ) :
    (EFloat.fin a).sub (EFloat.fin b) = EFloat.fin (a - b) := rfl

@[simp] theorem EFloat.fin_mul_fin (a b : ℚ) :
    (EFloat.fin a).mul (EFloat.fin b) = EFloat.fin (a * b) := rfl

theorem EFloat.fin_div_fin (a b : ℚ) (hb : b ≠ 0) :
    (EFloat.fin a).div (EFloat.fin b) = EFloat.fin (a / b) := by
  simp [EFloat.div, hb]

/-- Dividing a finite value by (unsigned) zero always yields a special
value: `inf`, `neginf` or `nan` depending on the sign of the dividend. -/
theorem EFloat.fin_div_zero_special (a : ℚ) :
    ((EFloat.fin a).div (EFloat.fin 0)).isSpecial = true := by
  by_cases h1 : 0 < a
  · simp [EFloat.div, EFloat.isSpecial, h1]
  · by_cases h2 : a < 0 <;> simp [EFloat.div, EFloat.isSpecial, h1, h2]

/-- Dividing a special value by a finite value yields a special value. -/
theorem EFloat.special_div_fin (x : EFloat) (b : ℚ) (hx : x.isSpecial = true) :
    (x.div (EFloat.fin b)).isSpecial = true := by
  cases x with
  | fin q => simp [EFloat.isSpecial] at hx
  | inf => by_cases hb : b < 0 <;> simp [EFloat.div, EFloat.isSpecial, hb]
  | neginf => by_cases hb : b < 0 <;> simp [EFloat.div, EFloat.isSpecial, hb]
  | nan => simp [EFloat.div, EFloat.isSpecial]

/-- The coordinate limits `(x_min, x_max, y_min, y_max)` of the image,
indexed in the source as `coord_lim[0] .. coord_lim[3]`. -/
structure CoordLim where
  x_min : EFloat
  x_max : EFloat
  y_min : EFloat
  y_max : EFloat
deriving DecidableEq

/-- The image dimensions, indexed in the source as
`imgdim[0]` (width) and `imgdim[1]` (height). -/
structure ImgDim where
  width : EFloat
  height : EFloat
deriving DecidableEq

/-- `coord2pix` from `deepmoon/coord/transformation.py`:
```
x = imgdim[0] * (cx - coord_lim[0]) / (coord_lim[1] - coord_lim[0])
if origin == "lower":
    y = imgdim[1] * (cy - coord_lim[2]) / (coord_lim[3] - coord_lim[2])
else:
    y = imgdim[1] * (coord_lim[3] - cy) / (coord_lim[3] - coord_lim[2])
return x, y
```
The Python default for `origin` is `"upper"`. -/
def coord2pix (cx cy : EFloat) (coord_lim : CoordLim) (imgdim : ImgDim)
    (origin : String) : EFloat × EFloat :=
  let x := (imgdim.width.mul (cx.sub coord_lim.x_min)).div
    (coord_lim.x_max.sub coord_lim.x_min)
  let y :=
    if origin == "lower" then
      (imgdim.height.mul (cy.sub coord_lim.y_min)).div
        (coord_lim.y_max.sub coord_lim.y_min)
    else
      (imgdim.height.mul (coord_lim.y_max.sub cy)).div
        (coord_lim.y_max.sub coord_lim.y_min)
  (x, y)

/-- `pix2coord` from `deepmoon/coord/transformation.py`:
```
cx = (x / imgdim[0]) * (coord_lim[1] - coord_lim[0]) + coord_lim[0]
if origin == "lower":
    cy = (y / imgdim[1]) * (coord_lim[3] - coord_lim[2]) + coord_lim[2]
else:
    cy = coord_lim[3] - (y / imgdim[1]) * (coord_lim[3] - coord_lim[2])
return cx, cy
```
The Python default for `origin` is `"upper"`. -/
def pix2coord (x y : EFloat) (coord_lim : CoordLim) (imgdim : ImgDim)
    (origin : String) : EFloat × EFloat :=
  let cx := ((x.div imgdim.width).mul
    (coord_lim.x_max.sub coord_lim.x_min)).add coord_lim.x_min
  let cy :=
    if origin == "lower" then
      ((y.div imgdim.height).mul
        (coord_lim.y_max.sub coord_lim.y_min)).add coord_lim.y_min
    else
      coord_lim.y_max.sub ((y.div imgdim.height).mul
        (coord_lim.y_max.sub coord_lim.y_min))
  (cx, cy)

/-- The exact rational value of the IEEE-754 double `np.pi`:
`884279719003555 / 2^48`, the double closest to π. -/
def np_pi : ℚ := 884279719003555 / 281474976710656

/-- `km2pix` from `deepmoon/coord/transformation.py`:
`return (180. / np.pi) * imgheight * dc / latextent / a`,
left-associated as in Python.  The Python defaults are `dc = 1.0` and
`a = 1737.4`. -/
def km2pix (imgheight latextent dc a : EFloat) : EFloat :=
  (((((EFloat.fin 180).div (EFloat.fin np_pi)).mul imgheight).mul dc).div
    latextent).div a

/-- `km2pix` with the source's default arguments `dc = 1.0` and
`a = 1737.4` (= 8687/5) filled in. -/
def km2pix_default (imgheight latextent : EFloat) : EFloat :=
  km2pix imgheight latextent (EFloat.fin 1) (EFloat.fin (8687 / 5))

/-!
The `MoonCrater` dataset adapter (`deepmoon/learning/moondata.py`).

The file system is abstracted as the predicate `isFile` (Python's
`Path.is_file()`).  The manifest `root/data_rec.json` is modelled as the
already-parsed list of the integer `name` fields of its records
(`int(element["name"])` in the source); JSON decoding itself is host I/O
outside the embedding.  Python's `assert` is modelled by returning `none`
(the raised `AssertionError`); `some` is a successfully constructed object.
The source collects the retained `(image, mask)` pairs into a `set` before
freezing them as a tuple, which `List.dedup` models.
-/

/-- The file-existence oracle: `isFile p = true` iff path `p` is an
existing regular file. -/
structure FileSystem where
  isFile : String → Bool

/-- The manifest path `root / "data_rec.json"`. -/
def data_rec_path (root : String) : String := root ++ "/data_rec.json"

/-- The image path `root / f"{index}.png"`. -/
def image_path (root : String) (index : Int) : String :=
  root ++ "/" ++ toString index ++ ".png"

/-- The mask path `root / "mask" / f"{index}.png"`. -/
def mask_path (root : String) (index : Int) : String :=
  root ++ "/mask/" ++ toString index ++ ".png"

/-- The loop body of `MoonCrater.__init__`: for each record name, keep the
`(image, mask)` path pair iff both files exist; the `set` used in the source
is modelled by deduplication. -/
def crater_files (fs : FileSystem) (root : String) (info : List Int) :
    List (String × String) :=
  (info.filterMap (fun index =>
    let image := image_path root index
    let mask := mask_path root index
    if fs.isFile image && fs.isFile mask then some (image, mask) else none)).dedup

/-- The state of a constructed `MoonCrater` dataset that the claims are
about: its retained `(image, mask)` path pairs. -/
structure MoonCrater where
  files : List (String × String)
deriving DecidableEq

/-- `MoonCrater.__init__`: asserts that `root/data_rec.json` is a file
(`none` models the raised `AssertionError`), then retains exactly the
pairs whose image and mask files both exist. -/
def MoonCrater.init (fs : FileSystem) (root : String) (info : List Int) :
    Option MoonCrater :=
  if fs.isFile (data_rec_path root) then
    some ⟨crater_files fs root info⟩
  else
    none

/-- `MoonCrater.__len__`: the number of retained pairs. -/
def MoonCrater.len (m : MoonCrater) : Nat := m.files.length

/-!  Theorems about the coordinate transforms. -/

/-- C2: `coord2pix` computes exactly the specified affine formula: the
returned x is `width * (cx - x_min) / (x_max - x_min)`; the returned y is
`height * (y_max - cy) / (y_max - y_min)` for origin `"upper"` (the source's
default) and `height * (cy - y_min) / (y_max - y_min)` for origin
`"lower"`. -/
theorem coord2pix_formula (cx cy x_min x_max y_min y_max w h : ℚ)
    (hx : x_min ≠ x_max) (hy : y_min ≠ y_max) :
    coord2pix (.fin cx) (.fin cy) ⟨.fin x_min, .fin x_max, .fin y_min, .fin y_max⟩
        ⟨.fin w, .fin h⟩ "upper"
      = (.fin (w * (cx - x_min) / (x_max - x_min)),
         .fin (h * (y_max - cy) / (y_max - y_min)))
    ∧ coord2pix (.fin cx) (.fin cy) ⟨.fin x_min, .fin x_max, .fin y_min, .fin y_max⟩
        ⟨.fin w, .fin h⟩ "lower"
      = (.fin (w * (cx - x_min) / (x_max - x_min)),
         .fin (h * (cy - y_min) / (y_max - y_min))) := by
  have hdx : x_max - x_min ≠ 0 := sub_ne_zero.mpr (Ne.symm hx)
  have hdy : y_max - y_min ≠ 0 := sub_ne_zero.mpr (Ne.symm hy)
  constructor <;>
    simp [coord2pix, EFloat.fin_div_fin, hdx, hdy]

/-- Closed witness for `coord2pix_formula` at concrete inputs. -/
theorem coord2pix_formula_witness :
    ((1:ℚ) ≠ 2 ∧ (4:ℚ) ≠ 6)
    ∧ (coord2pix (.fin 3) (.fin 5) ⟨.fin 1, .fin 2, .fin 4, .fin 6⟩
          ⟨.fin 10, .fin 20⟩ "upper"
        = (.fin (10 * (3 - 1) / (2 - 1)), .fin (20 * (6 - 5) / (6 - 4)))
      ∧ coord2pix (.fin 3) (.fin 5) ⟨.fin 1, .fin 2, .fin 4, .fin 6⟩
          ⟨.fin 10, .fin 20⟩ "lower"
        = (.fin (10 * (3 - 1) / (2 - 1)), .fin (20 * (5 - 4) / (6 - 4)))) :=
  ⟨⟨by norm_num, by norm_num⟩,
    coord2pix_formula 3 5 1 2 4 6 10 20 (by norm_num) (by norm_num)⟩

/-- C5: boundary corners with origin `"upper"`:
`coord2pix(x_min, y_max) = (0, 0)` and
`coord2pix(x_max, y_min) = (width, height)`. -/
theorem coord2pix_corners (x_min x_max y_min y_max w h : ℚ)
    (hx : x_min ≠ x_max) (hy : y_min ≠ y_max) :
    coord2pix (.fin x_min) (.fin y_max)
        ⟨.fin x_min, .fin x_max, .fin y_min, .fin y_max⟩ ⟨.fin w, .fin h⟩ "upper"
      = (.fin 0, .fin 0)
    ∧ coord2pix (.fin x_max) (.fin y_min)
        ⟨.fin x_min, .fin x_max, .fin y_min, .fin y_max⟩ ⟨.fin w, .fin h⟩ "upper"
      = (.fin w, .fin h) := by
  have hdx : x_max - x_min ≠ 0 := sub_ne_zero.mpr (Ne.symm hx)
  have hdy : y_max - y_min ≠ 0 := sub_ne_zero.mpr (Ne.symm hy)
  constructor <;> simp [coord2pix, EFloat.fin_div_fin, hdx, hdy]

/-- Closed witness for `coord2pix_corners` at concrete inputs. -/
theorem coord2pix_corners_witness :
    ((1:ℚ) ≠ 2 ∧ (4:ℚ) ≠ 6)
    ∧ (coord2pix (.fin 1) (.fin 6) ⟨.fin 1, .fin 2, .fin 4, .fin 6⟩
          ⟨.fin 10, .fin 20⟩ "upper" = (.fin 0, .fin 0)
      ∧ coord2pix (.fin 2) (.fin 4) ⟨.fin 1, .fin 2, .fin 4, .fin 6⟩
          ⟨.fin 10, .fin 20⟩ "upper" = (.fin 10, .fin 20)) :=
  ⟨⟨by norm_num, by norm_num⟩,
    coord2pix_corners 1 2 4 6 10 20 (by norm_num) (by norm_num)⟩

/-- C6: origin symmetry: the y pixel produced with origin `"upper"` plus the
y pixel produced with origin `"lower"` equals the image height. -/
theorem coord2pix_origin_symmetry (cx cy x_min x_max y_min y_max w h : ℚ)
    (hx : x_min ≠ x_max) (hy : y_min ≠ y_max) :
    ((coord2pix (.fin cx) (.fin cy)
        ⟨.fin x_min, .fin x_max, .fin y_min, .fin y_max⟩
        ⟨.fin w, .fin h⟩ "upper").2).add
      ((coord2pix (.fin cx) (.fin cy)
        ⟨.fin x_min, .fin x_max, .fin y_min, .fin y_max⟩
        ⟨.fin w, .fin h⟩ "lower").2)
      = .fin h := by
  have hdy : y_max - y_min ≠ 0 := sub_ne_zero.mpr (Ne.symm hy)
  simp [coord2pix, EFloat.fin_div_fin, hdy]
  field_simp
  ring

/-- Closed witness for `coord2pix_origin_symmetry` at concrete inputs. -/
theorem coord2pix_origin_symmetry_witness :
    ((1:ℚ) ≠ 2 ∧ (4:ℚ) ≠ 6)
    ∧ ((coord2pix (.fin 3) (.fin 5) ⟨.fin 1, .fin 2, .fin 4, .fin 6⟩
          ⟨.fin 10, .fin 20⟩ "upper").2).add
        ((coord2pix (.fin 3) (.fin 5) ⟨.fin 1, .fin 2, .fin 4, .fin 6⟩
          ⟨.fin 10, .fin 20⟩ "lower").2) = .fin 20 :=
  ⟨⟨by norm_num, by norm_num⟩,
    coord2pix_origin_symmetry 3 5 1 2 4 6 10 20 (by norm_num) (by norm_num)⟩

/-- C1: round-trip inverse: for non-degenerate limits, positive dimensions,
finite coordinates and any `origin` argument (in particular both `"upper"`
and `"lower"`), `pix2coord` applied to the result of `coord2pix` with the
same parameters returns exactly `(cx, cy)` (the model computes with exact
rationals on finite values). -/
theorem pix2coord_coord2pix_roundtrip (cx cy x_min x_max y_min y_max w h : ℚ)
    (origin : String)
    (hx : x_min ≠ x_max) (hy : y_min ≠ y_max) (hw : 0 < w) (hh : 0 < h) :
    pix2coord
      (coord2pix (.fin cx) (.fin cy)
        ⟨.fin x_min, .fin x_max, .fin y_min, .fin y_max⟩
        ⟨.fin w, .fin h⟩ origin).1
      (coord2pix (.fin cx) (.fin cy)
        ⟨.fin x_min, .fin x_max, .fin y_min, .fin y_max⟩
        ⟨.fin w, .fin h⟩ origin).2
      ⟨.fin x_min, .fin x_max, .fin y_min, .fin y_max⟩
      ⟨.fin w, .fin h⟩ origin
    = (.fin cx, .fin cy) := by
  have hdx : x_max - x_min ≠ 0 := sub_ne_zero.mpr (Ne.symm hx)
  have hdy : y_max - y_min ≠ 0 := sub_ne_zero.mpr (Ne.symm hy)
  have hw' : w ≠ 0 := ne_of_gt hw
  have hh' : h ≠ 0 := ne_of_gt hh
  cases horig : origin == "lower" <;>
    · simp [coord2pix, pix2coord, horig, EFloat.fin_div_fin, hdx, hdy, hw', hh']
      constructor <;> · field_simp; ring

/-- Closed witness for `pix2coord_coord2pix_roundtrip` at concrete inputs. -/
theorem pix2coord_coord2pix_roundtrip_witness :
    ((1:ℚ) ≠ 2 ∧ (4:ℚ) ≠ 6 ∧ (0:ℚ) < 10 ∧ (0:ℚ) < 20)
    ∧ pix2coord
        (coord2pix (.fin 3) (.fin 5) ⟨.fin 1, .fin 2, .fin 4, .fin 6⟩
          ⟨.fin 10, .fin 20⟩ "upper").1
        (coord2pix (.fin 3) (.fin 5) ⟨.fin 1, .fin 2, .fin 4, .fin 6⟩
          ⟨.fin 10, .fin 20⟩ "upper").2
        ⟨.fin 1, .fin 2, .fin 4, .fin 6⟩ ⟨.fin 10, .fin 20⟩ "upper"
      = (.fin 3, .fin 5) :=
  ⟨⟨by norm_num, by norm_num, by norm_num, by norm_num⟩,
    pix2coord_coord2pix_roundtrip 3 5 1 2 4 6 10 20 "upper"
      (by norm_num) (by norm_num) (by norm_num) (by norm_num)⟩

/-- C3: `km2pix` computes exactly
`(180 / pi) * imgheight * dc / latextent / a` (with `pi` the host's
`np.pi` constant, embedded exactly as `np_pi`), and its default parameters
are `dc = 1.0` and `a = 1737.4`. -/
theorem km2pix_formula (imgheight latextent dc a : ℚ)
    (hh : 0 < imgheight) (he : latextent ≠ 0) (ha : a ≠ 0) :
    km2pix (.fin imgheight) (.fin latextent) (.fin dc) (.fin a)
      = .fin ((180 / np_pi) * imgheight * dc / latextent / a)
    ∧ km2pix_default (.fin imgheight) (.fin latextent)
      = km2pix (.fin imgheight) (.fin latextent) (.fin 1) (.fin (8687 / 5)) := by
  have hnp : np_pi ≠ 0 := by norm_num [np_pi]
  exact ⟨by simp [km2pix, EFloat.fin_div_fin, hnp, he, ha], rfl⟩

/-- Closed witness for `km2pix_formula` at concrete inputs. -/
theorem km2pix_formula_witness :
    ((0:ℚ) < 256 ∧ (30:ℚ) ≠ 0 ∧ (8687 / 5 : ℚ) ≠ 0)
    ∧ (km2pix (.fin 256) (.fin 30) (.fin 1) (.fin (8687 / 5))
        = .fin ((180 / np_pi) * 256 * 1 / 30 / (8687 / 5))
      ∧ km2pix_default (.fin 256) (.fin 30)
        = km2pix (.fin 256) (.fin 30) (.fin 1) (.fin (8687 / 5))) :=
  ⟨⟨by norm_num, by norm_num, by norm_num⟩,
    km2pix_formula 256 30 1 (8687 / 5) (by norm_num) (by norm_num) (by norm_num)⟩

/-- Doubling the dividend commutes with a (possibly zero) finite divisor:
used for the homogeneity of `km2pix` at an arbitrary world radius. -/
theorem EFloat.fin_two_mul_div (n b : ℚ) :
    (EFloat.fin (2 * n)).div (EFloat.fin b)
      = (EFloat.fin 2).mul ((EFloat.fin n).div (EFloat.fin b)) := by
  rcases eq_or_ne b 0 with hb | hb
  · subst hb
    rcases lt_trichotomy n 0 with hn | hn | hn
    · have h1 : ¬ (0:ℚ) < n := not_lt.mpr hn.le
      have h2 : 2 * n < 0 := by linarith
      have h3 : ¬ (0:ℚ) < 2 * n := not_lt.mpr h2.le
      have h4 : (0:ℚ) < 2 := by norm_num
      simp [EFloat.div, EFloat.mul, h1, hn, h2, h3, h4]
    · subst hn
      simp [EFloat.div, EFloat.mul]
    · have h1 : (0:ℚ) < 2 * n := by linarith
      have h4 : (0:ℚ) < 2 := by norm_num
      simp [EFloat.div, EFloat.mul, hn, h1, h4]
  · rw [EFloat.fin_div_fin _ _ hb, EFloat.fin_div_fin _ _ hb,
      EFloat.fin_mul_fin]
    rw [mul_div_assoc]

/-- C7: `km2pix` is homogeneous of degree 1 in the image height:
`km2pix(2 * h, e, 1, a) = 2 * km2pix(h, e, 1, a)` for nonzero `e` and any
world radius `a` (in the embedding's exact IEEE model the identity also
covers the special values produced when `a = 0`). -/
theorem km2pix_homogeneous (h e a : ℚ) (he : e ≠ 0) :
    km2pix (.fin (2 * h)) (.fin e) (.fin 1) (.fin a)
      = (EFloat.fin 2).mul (km2pix (.fin h) (.fin e) (.fin 1) (.fin a)) := by
  have hnp : np_pi ≠ 0 := by norm_num [np_pi]
  have key : 180 / np_pi * (2 * h) * 1 / e = 2 * (180 / np_pi * h * 1 / e) := by
    ring
  simp only [km2pix, EFloat.fin_div_fin _ _ hnp, EFloat.fin_mul_fin,
    EFloat.fin_div_fin _ _ he, key]
  exact EFloat.fin_two_mul_div _ a

/-- Closed witness for `km2pix_homogeneous` at concrete inputs. -/
theorem km2pix_homogeneous_witness :
    ((30:ℚ) ≠ 0)
    ∧ km2pix (.fin (2 * 128)) (.fin 30) (.fin 1) (.fin (8687 / 5))
      = (EFloat.fin 2).mul (km2pix (.fin 128) (.fin 30) (.fin 1) (.fin (8687 / 5))) :=
  ⟨by norm_num, km2pix_homogeneous 128 30 (8687 / 5) (by norm_num)⟩

/-- C10: `coord2pix` and `pix2coord` compare `origin` only against the
string `"lower"`: every other value — including the default `"upper"` and
unrecognized strings such as `"Lower"` or `"bottom"` — selects the
upper-origin formula, and no invalid-argument error is raised (both
functions are total). -/
theorem origin_fallback (cx cy : EFloat) (coord_lim : CoordLim)
    (imgdim : ImgDim) (origin : String) (h : origin ≠ "lower") :
    coord2pix cx cy coord_lim imgdim origin
      = coord2pix cx cy coord_lim imgdim "upper"
    ∧ pix2coord cx cy coord_lim imgdim origin
      = pix2coord cx cy coord_lim imgdim "upper" := by
  have hb : (origin == "lower") = false := beq_eq_false_iff_ne.mpr h
  constructor <;> simp [coord2pix, pix2coord, hb]

/-- Closed witness for `origin_fallback` at the unrecognized origin
string `"Lower"`. -/
theorem origin_fallback_witness :
    (("Lower" : String) ≠ "lower")
    ∧ (coord2pix (.fin 3) (.fin 5) ⟨.fin 1, .fin 2, .fin 4, .fin 6⟩
          ⟨.fin 10, .fin 20⟩ "Lower"
        = coord2pix (.fin 3) (.fin 5) ⟨.fin 1, .fin 2, .fin 4, .fin 6⟩
          ⟨.fin 10, .fin 20⟩ "upper"
      ∧ pix2coord (.fin 3) (.fin 5) ⟨.fin 1, .fin 2, .fin 4, .fin 6⟩
          ⟨.fin 10, .fin 20⟩ "Lower"
        = pix2coord (.fin 3) (.fin 5) ⟨.fin 1, .fin 2, .fin 4, .fin 6⟩
          ⟨.fin 10, .fin 20⟩ "upper") :=
  ⟨by decide,
    origin_fallback (.fin 3) (.fin 5) ⟨.fin 1, .fin 2, .fin 4, .fin 6⟩
      ⟨.fin 10, .fin 20⟩ "Lower" (by decide)⟩

/-- C4 counterexample: `pix2coord` on a fully degenerate `coord_lim`
(`x_min = x_max = y_min = y_max = 0`) with finite pixel inputs returns
*finite* values (`isSpecial = false`), not an infinity/NaN: `pix2coord`
never divides by the coordinate ranges, only by the image dimensions, so a
degenerate `coord_lim` causes no division by zero there. -/
theorem pix2coord_degenerate_finite :
    pix2coord (.fin 1) (.fin 1) ⟨.fin 0, .fin 0, .fin 0, .fin 0⟩
        ⟨.fin 2, .fin 2⟩ "upper" = (.fin 0, .fin 0)
    ∧ ((EFloat.fin 0).isSpecial = false) := by
  have h2 : (2:ℚ) ≠ 0 := by norm_num
  refine ⟨?_, rfl⟩
  simp [pix2coord, EFloat.fin_div_fin, h2]

/-- C4 (amended): on a degenerate coordinate range, `coord2pix` produces a
special value (infinity or NaN) in the affected component, and `km2pix`
with `latextent = 0` produces a special value; `pix2coord`, which divides
only by the image dimensions, returns finite values on a degenerate
`coord_lim` (given nonzero dimensions).  None of the functions raises:
all are total. -/
theorem degenerate_range_behaviour
    (cx cy x_min x_max y_min y_max m n px py w h ih dc a : ℚ)
    (origin : String) (hw : w ≠ 0) (hh : h ≠ 0) :
    ((coord2pix (.fin cx) (.fin cy) ⟨.fin m, .fin m, .fin y_min, .fin y_max⟩
        ⟨.fin w, .fin h⟩ origin).1).isSpecial = true
    ∧ ((coord2pix (.fin cx) (.fin cy) ⟨.fin x_min, .fin x_max, .fin n, .fin n⟩
        ⟨.fin w, .fin h⟩ origin).2).isSpecial = true
    ∧ (km2pix (.fin ih) (.fin 0) (.fin dc) (.fin a)).isSpecial = true
    ∧ ((pix2coord (.fin px) (.fin py) ⟨.fin m, .fin m, .fin n, .fin n⟩
        ⟨.fin w, .fin h⟩ origin).1).isSpecial = false
    ∧ ((pix2coord (.fin px) (.fin py) ⟨.fin m, .fin m, .fin n, .fin n⟩
        ⟨.fin w, .fin h⟩ origin).2).isSpecial = false := by
  have hnp : np_pi ≠ 0 := by norm_num [np_pi]
  refine ⟨?_, ?_, ?_, ?_, ?_⟩
  · simpa [coord2pix] using EFloat.fin_div_zero_special (w * (cx - m))
  · cases horig : origin == "lower" <;>
      · simp only [coord2pix, horig, EFloat.fin_sub_fin, EFloat.fin_mul_fin,
          Bool.false_eq_true, if_false, if_true, sub_self]
        simpa using EFloat.fin_div_zero_special _
  · simp only [km2pix, EFloat.fin_div_fin _ _ hnp, EFloat.fin_mul_fin]
    exact EFloat.special_div_fin _ a (EFloat.fin_div_zero_special _)
  · cases horig : origin == "lower" <;>
      simp [pix2coord, horig, EFloat.fin_div_fin, hw, hh, EFloat.isSpecial]
  · cases horig : origin == "lower" <;>
      simp [pix2coord, horig, EFloat.fin_div_fin, hw, hh, EFloat.isSpecial]

/-- Closed witness for `degenerate_range_behaviour` at concrete inputs. -/
theorem degenerate_range_behaviour_witness :
    ((2:ℚ) ≠ 0 ∧ (3:ℚ) ≠ 0)
    ∧ (((coord2pix (.fin 1) (.fin 1) ⟨.fin 5, .fin 5, .fin 0, .fin 9⟩
          ⟨.fin 2, .fin 3⟩ "upper").1).isSpecial = true
      ∧ ((coord2pix (.fin 1) (.fin 1) ⟨.fin 0, .fin 9, .fin 7, .fin 7⟩
          ⟨.fin 2, .fin 3⟩ "upper").2).isSpecial = true
      ∧ (km2pix (.fin 256) (.fin 0) (.fin 1) (.fin (8687 / 5))).isSpecial = true
      ∧ ((pix2coord (.fin 1) (.fin 1) ⟨.fin 5, .fin 5, .fin 7, .fin 7⟩
          ⟨.fin 2, .fin 3⟩ "upper").1).isSpecial = false
      ∧ ((pix2coord (.fin 1) (.fin 1) ⟨.fin 5, .fin 5, .fin 7, .fin 7⟩
          ⟨.fin 2, .fin 3⟩ "upper").2).isSpecial = false) :=
  ⟨⟨by norm_num, by norm_num⟩,
    degenerate_range_behaviour 1 1 0 9 0 9 5 7 1 1 2 3 256 1 (8687 / 5)
      "upper" (by norm_num) (by norm_num)⟩

/-!  Theorems about the `MoonCrater` dataset adapter. -/

/-- A `filterMap` whose function keeps `g a` exactly when `c a` holds is
the `map` of `g` over the `filter` of `c`. -/
theorem filterMap_if_eq_map_filter {α β : Type} (c : α → Bool) (g : α → β)
    (l : List α) :
    (l.filterMap fun a => if c a then some (g a) else none)
      = (l.filter c).map g := by
  induction l with
  | nil => rfl
  | cons head tail ih =>
      cases hc : c head <;>
        simp [List.filterMap_cons, List.filter_cons, hc, ih]

/-- The retained pair list is the deduplicated image of the records whose
image and mask files both exist. -/
theorem crater_files_eq (fs : FileSystem) (root : String) (info : List Int) :
    crater_files fs root info
      = ((info.filter fun index =>
            fs.isFile (image_path root index) && fs.isFile (mask_path root index)).map
          fun index => (image_path root index, mask_path root index)).dedup := by
  exact congrArg List.dedup (filterMap_if_eq_map_filter
    (fun index => fs.isFile (image_path root index) && fs.isFile (mask_path root index))
    (fun index => (image_path root index, mask_path root index)) info)

/-- Membership in the retained pair list: exactly the pairs of some record
in the manifest whose image and mask files both exist. -/
theorem mem_crater_files (fs : FileSystem) (root : String) (info : List Int)
    (p : String × String) :
    p ∈ crater_files fs root info ↔
      ∃ index ∈ info,
        fs.isFile (image_path root index) = true ∧
        fs.isFile (mask_path root index) = true ∧
        p = (image_path root index, mask_path root index) := by
  rw [crater_files_eq, List.mem_dedup, List.mem_map]
  constructor
  · rintro ⟨i, hi, rfl⟩
    obtain ⟨hmem, hcond⟩ := List.mem_filter.mp hi
    rw [Bool.and_eq_true] at hcond
    exact ⟨i, hmem, hcond.1, hcond.2, rfl⟩
  · rintro ⟨i, hi, h1, h2, rfl⟩
    exact ⟨i, List.mem_filter.mpr ⟨hi, by simp [h1, h2]⟩, rfl⟩

/-- C8: manifest fail-fast: whenever `root/data_rec.json` is not an
existing file, `MoonCrater.__init__` raises (modelled as `none`) and no
dataset object is produced. -/
theorem mooncrater_init_fail_fast (fs : FileSystem) (root : String)
    (info : List Int) (h : fs.isFile (data_rec_path root) = false) :
    MoonCrater.init fs root info = none := by
  simp [MoonCrater.init, h]

/-- Closed witness for `mooncrater_init_fail_fast` on an empty file
system. -/
theorem mooncrater_init_fail_fast_witness :
    (FileSystem.mk fun _ => false).isFile (data_rec_path "r") = false
    ∧ MoonCrater.init ⟨fun _ => false⟩ "r" [0] = none :=
  ⟨rfl, mooncrater_init_fail_fast ⟨fun _ => false⟩ "r" [0] rfl⟩

/-- C9: missing-file filtering: every retained pair has both files
existing; a record whose image or mask file is absent contributes no pair
(silent exclusion — construction still succeeds, returning `some`, whenever
the manifest exists); and `len` equals exactly the number of retained
pairs, i.e. the cardinality of the set of pairs whose records have both
files existing. -/
theorem mooncrater_missing_file_filtering (fs : FileSystem) (root : String)
    (info : List Int) :
    (∀ p ∈ crater_files fs root info,
        fs.isFile p.1 = true ∧ fs.isFile p.2 = true)
    ∧ (∀ index ∈ info,
        (fs.isFile (image_path root index) &&
          fs.isFile (mask_path root index)) = false →
        (image_path root index, mask_path root index) ∉
          crater_files fs root info)
    ∧ (∀ index ∈ info, fs.isFile (image_path root index) = true →
        fs.isFile (mask_path root index) = true →
        (image_path root index, mask_path root index) ∈
          crater_files fs root info)
    ∧ (fs.isFile (data_rec_path root) = true →
        MoonCrater.init fs root info = some ⟨crater_files fs root info⟩)
    ∧ (∀ m, MoonCrater.init fs root info = some m →
        m.len = ((info.filter fun index =>
            fs.isFile (image_path root index) &&
              fs.isFile (mask_path root index)).map
          fun index =>
            (image_path root index, mask_path root index)).toFinset.card) := by
  refine ⟨?_, ?_, ?_, ?_, ?_⟩
  · intro p hp
    obtain ⟨i, _, h1, h2, rfl⟩ := (mem_crater_files fs root info p).mp hp
    exact ⟨h1, h2⟩
  · intro i _ hfalse hmem
    obtain ⟨j, _, h1, h2, hpair⟩ :=
      (mem_crater_files fs root info _).mp hmem
    injection hpair with e1 e2
    rw [e1, e2] at hfalse
    simp [h1, h2] at hfalse
  · intro i hi h1 h2
    exact (mem_crater_files fs root info _).mpr ⟨i, hi, h1, h2, rfl⟩
  · intro hfs
    simp [MoonCrater.init, hfs]
  · intro m hm
    cases hfs : fs.isFile (data_rec_path root) with
    | false => simp [MoonCrater.init, hfs] at hm
    | true =>
        simp only [MoonCrater.init, hfs, if_true, Option.some_inj] at hm
        rw [← hm, MoonCrater.len, crater_files_eq, List.card_toFinset]

/-- Closed witness for `mooncrater_missing_file_filtering`: record 1 has
both files and is retained; record 2 is missing its mask file and is
excluded. -/
theorem mooncrater_missing_file_filtering_witness :
    (image_path "r" 1, mask_path "r" 1) ∈
      crater_files
        ⟨fun s => s == "r/data_rec.json" || s == "r/1.png" ||
          s == "r/mask/1.png" || s == "r/2.png"⟩ "r" [1, 2]
    ∧ (image_path "r" 2, mask_path "r" 2) ∉
      crater_files
        ⟨fun s => s == "r/data_rec.json" || s == "r/1.png" ||
          s == "r/mask/1.png" || s == "r/2.png"⟩ "r" [1, 2] :=
  ⟨(mooncrater_missing_file_filtering
      ⟨fun s => s == "r/data_rec.json" || s == "r/1.png" ||
        s == "r/mask/1.png" || s == "r/2.png"⟩ "r" [1, 2]).2.2.1
    1 (by decide) (by decide) (by decide),
   (mooncrater_missing_file_filtering
      ⟨fun s => s == "r/data_rec.json" || s == "r/1.png" ||
        s == "r/mask/1.png" || s == "r/2.png"⟩ "r" [1, 2]).2.1
    2 (by decide) (by decide)⟩

end DeepMoon
